import Mathlib

set_option maxRecDepth 4000

namespace CrudApp

/-! Shallow embedding of `src/app.py`, a Flask CRUD application over one
`items` table, together with the parts of Python's string and
`urllib.parse` semantics that `_normalize_db_url` depends on.

Strings are modelled as Lean `String`/`List Char`.  The embedding is
faithful for ASCII text: Python's `str.strip`/`str.lower` additionally
handle non-ASCII whitespace/case, and percent-escapes for bytes ≥ 0x80
UTF-8-decode in CPython, which is modelled here by the replacement
character.  All concrete inputs used below are ASCII. -/

/-- Python `str.isspace` on the ASCII whitespace characters
(space, tab, newline, vertical tab, form feed, carriage return). -/
def pyIsSpace (c : Char) : Bool :=
  c == ' ' || c == '\t' || c == '\n' || c == '\x0b' || c == '\x0c' || c == '\r'

/-- Python `str.strip()` on a character list: drop whitespace at both ends. -/
def pyStripL (l : List Char) : List Char :=
  ((l.dropWhile pyIsSpace).reverse.dropWhile pyIsSpace).reverse

/-- Python `str.strip()`. -/
def pyStrip (s : String) : String := String.mk (pyStripL s.toList)

/-- Python `str.lower` on one character (ASCII range). -/
def pyLowerChar (c : Char) : Char :=
  if 'A' ≤ c ∧ c ≤ 'Z' then Char.ofNat (c.toNat + 32) else c

/-- Python `str.lower` (ASCII range). -/
def pyLower (s : String) : String := String.mk (s.toList.map pyLowerChar)

/-! ## Data model (`class Item`, `app.py` lines 43-53)

`id` is the integer primary key (autoincrement is modelled by `Db.nextId`),
`description` is a nullable column hence `Option String`, timestamps are
abstract instants (`Nat`) assigned by the storage layer (`func.now()`). -/

structure Item where
  id : Nat
  title : String
  description : Option String
  status : String
  created_at : Nat
  updated_at : Nat
deriving Repr, DecidableEq

/-- The database state: the `items` table plus the autoincrement counter. -/
structure Db where
  items : List Item
  nextId : Nat
deriving Repr, DecidableEq

/-- Submitted form data; `none` models an absent field
(`request.form.get(name, default)` supplies the default). -/
structure Form where
  title : Option String
  description : Option String
  status : Option String
deriving Repr, DecidableEq

/-- Outcome of one request: a rendered template (HTTP 200) possibly with a
flashed `(message, category)`, a redirect (HTTP 302) with its flash, or the
`get_or_404` not-found abort (HTTP 404). -/
inductive HResult where
  | rendered (template : String) (flash : Option (String × String))
  | redirected (target : String) (flash : Option (String × String))
  | notFound
deriving Repr, DecidableEq

def HResult.httpStatus : HResult → Nat
  | .rendered _ _ => 200
  | .redirected _ _ => 302
  | .notFound => 404

/-- The three enumerated status values (`app.py` lines 86, 110). -/
def statusValues : List String := ["todo", "in-progress", "done"]

/-- Status coercion: `if status not in {"todo","in-progress","done"}: status = "todo"`. -/
def coerceStatus (s : String) : String :=
  if s ∈ statusValues then s else "todo"

/-- `Item.query.get(item_id)`: primary-key lookup. -/
def lookupItem (d : Db) (i : Nat) : Option Item :=
  d.items.find? (fun it => it.id == i)

/-- `create_item`, GET branch (`app.py` line 93). -/
def create_item_get (d : Db) : HResult × Db :=
  (.rendered "item_form.html" none, d)

/-- `create_item`, POST branch (`app.py` lines 79-92): trim the fields,
reject an empty title with a re-rendered form, coerce the status, insert. -/
def create_item_post (d : Db) (f : Form) (now : Nat) : HResult × Db :=
  let title := pyStrip (f.title.getD "")
  let description := pyStrip (f.description.getD "")
  let status := pyStrip (f.status.getD "todo")
  if title = "" then
    (.rendered "item_form.html" (some ("Title is required", "danger")), d)
  else
    let status := coerceStatus status
    let item : Item :=
      ⟨d.nextId, title, some description, status, now, now⟩
    (.redirected "index" (some ("Item created", "success")),
      ⟨d.items ++ [item], d.nextId + 1⟩)

/-- `show_item` (`app.py` lines 95-98). -/
def show_item (d : Db) (i : Nat) : HResult × Db :=
  match lookupItem d i with
  | none => (.notFound, d)
  | some _ => (.rendered "show.html" none, d)

/-- `edit_item`, GET branch (`app.py` lines 100-102, 118). -/
def edit_item_get (d : Db) (i : Nat) : HResult × Db :=
  match lookupItem d i with
  | none => (.notFound, d)
  | some _ => (.rendered "item_form.html" none, d)

/-- The in-place mutation of the loaded record performed by the edit POST
(`app.py` lines 112-115); `updated_at` is refreshed by the storage layer's
`onupdate=func.now()` at commit. -/
def applyEdit (f : Form) (now : Nat) (it : Item) : Item :=
  { it with
      title := pyStrip (f.title.getD "")
      description := some (pyStrip (f.description.getD ""))
      status := coerceStatus (pyStrip (f.status.getD "todo"))
      updated_at := now }

/-- `edit_item`, POST branch (`app.py` lines 100-117): 404 on a missing id,
re-render on an empty trimmed title, otherwise mutate the record in place. -/
def edit_item_post (d : Db) (i : Nat) (f : Form) (now : Nat) : HResult × Db :=
  match lookupItem d i with
  | none => (.notFound, d)
  | some _ =>
    let title := pyStrip (f.title.getD "")
    if title = "" then
      (.rendered "item_form.html" (some ("Title is required", "danger")), d)
    else
      (.redirected "index" (some ("Item updated", "success")),
        ⟨d.items.map (fun it => if it.id == i then applyEdit f now it else it),
          d.nextId⟩)

/-- `delete_item` (`app.py` lines 120-126). -/
def delete_item (d : Db) (i : Nat) : HResult × Db :=
  match lookupItem d i with
  | none => (.notFound, d)
  | some _ =>
    (.redirected "index" (some ("Item deleted", "success")),
      ⟨d.items.filter (fun it => it.id != i), d.nextId⟩)

/-! ## The listing handler (`index`, `app.py` lines 58-75)

`Item.title.ilike(like)` is the SQL case-insensitive `LIKE`: the pattern
must cover the whole string, `%` matches any sequence, `_` any single
character, and both sides compare case-folded.  A `NULL` description never
matches.  `ORDER BY created_at DESC` is modelled as a stable merge sort by
descending `created_at`. -/

/-- Matching after a `%` wildcard: try the continuation on every suffix. -/
def likeStar (f : List Char → Bool) : List Char → Bool
  | [] => f []
  | c :: s2 => f (c :: s2) || likeStar f s2

/-- SQL `LIKE` pattern matching (no escape character, as in SQLite's
default `LIKE` used on the dev database): first argument the pattern,
second the candidate string; `%` matches any sequence, `_` any single
character, and the pattern must cover the whole string. -/
def likeM : List Char → List Char → Bool
  | [], s => s.isEmpty
  | c :: ps, s =>
    if c = '%' then likeStar (likeM ps) s
    else
      match s with
      | [] => false
      | d :: s2 => (if c = '_' then true else c == d) && likeM ps s2

/-- `column.ilike(pat)`: case-insensitive `LIKE`, modelled by lowering both
sides. -/
def iLike (text : String) (pat : List Char) : Bool :=
  likeM (pat.map pyLowerChar) (text.toList.map pyLowerChar)

/-- The `q` filter of the listing handler: `like = f"%{q}%"` matched with
`or_(Item.title.ilike(like), Item.description.ilike(like))`. -/
def itemMatchesQ (q : String) (it : Item) : Bool :=
  let pat := '%' :: q.toList ++ ['%']
  iLike it.title pat ||
    (match it.description with
     | some dsc => iLike dsc pat
     | none => false)

/-- Insert into a list that is sorted by descending `created_at`,
keeping it sorted (one step of the `ORDER BY created_at DESC` model). -/
def insertDesc (x : Item) : List Item → List Item
  | [] => [x]
  | y :: ys =>
    if y.created_at ≤ x.created_at then x :: y :: ys else y :: insertDesc x ys

/-- `ORDER BY created_at DESC`: some permutation of the list sorted by
descending creation timestamp (insertion sort; SQL fixes no tie order). -/
def sortByCreatedDesc (l : List Item) : List Item :=
  l.foldr insertDesc []

/-- The view-model handed to `index.html`: filtered items, echoed
parameters, and the four counts over the unfiltered table. -/
structure ViewModel where
  items : List Item
  q : String
  status : String
  counts_all : Nat
  counts_todo : Nat
  counts_in_progress : Nat
  counts_done : Nat
deriving Repr, DecidableEq

/-- The `index` route (`app.py` lines 58-75). -/
def index (d : Db) (qArg statusArg : Option String) : ViewModel :=
  let q := pyStrip (qArg.getD "")
  let status := pyStrip (statusArg.getD "")
  let query := d.items
  let query := if q ≠ "" then query.filter (itemMatchesQ q) else query
  let query := if status ≠ "" then query.filter (fun it => it.status == status) else query
  let items := sortByCreatedDesc query
  { items := items
    q := q
    status := status
    counts_all := d.items.length
    counts_todo := (d.items.filter (fun it => it.status == "todo")).length
    counts_in_progress := (d.items.filter (fun it => it.status == "in-progress")).length
    counts_done := (d.items.filter (fun it => it.status == "done")).length }

/-! ## Spec-side definitions for the listing claim

These follow the specification's words ("title or description
case-insensitively contains the query text"), independently of the `LIKE`
machinery above, for comparison with the handler. -/

/-- The first list is a leading block of the second. -/
def beginsWith : List Char → List Char → Bool
  | [], _ => true
  | _ :: _, [] => false
  | p :: ps, c :: cs => p == c && beginsWith ps cs

/-- The first list occurs contiguously inside the second. -/
def isSubList (p : List Char) : List Char → Bool
  | [] => p == []
  | c :: rest => beginsWith p (c :: rest) || isSubList p rest

/-- Case-insensitive substring containment, as the spec words it. -/
def containsCI (needle hay : String) : Bool :=
  isSubList (needle.toList.map pyLowerChar) (hay.toList.map pyLowerChar)

/-- The listing membership predicate exactly as the specification states
it: title or description case-insensitively contains `q` (when provided)
and the status equals the filter (when provided). -/
def specMatches (q status : String) (it : Item) : Bool :=
  (q == "" || containsCI q it.title ||
    (match it.description with
     | some dsc => containsCI q dsc
     | none => false)) &&
  (status == "" || it.status == status)

/-! ## Python `urllib.parse` (CPython 3.11), the parts `_normalize_db_url` uses

`parse_qsl` with its defaults (`keep_blank_values=False`) drops segments
without an `=` and segments with an empty value, replaces `+` by a space
and percent-decodes names and values.  `urlencode` re-encodes with
`quote_plus`.  `urlsplit` removes tab/CR/LF, lowercases a valid scheme and
extracts netloc/query/fragment; `urlunsplit` re-adds `//` only when the
netloc is non-empty or the scheme is in `uses_netloc`. -/

/-- Split at every occurrence of `sep`, keeping empty segments, as Python
`str.split(sep)` on a non-empty string. -/
def splitOnSep (sep : Char) : List Char → List (List Char)
  | [] => [[]]
  | c :: rest =>
    let r := splitOnSep sep rest
    if c == sep then [] :: r
    else
      match r with
      | [] => [[c]]
      | p :: ps => (c :: p) :: ps

/-- Split at the first occurrence of `sep` (Python `str.split(sep, 1)`),
or `none` when `sep` does not occur. -/
def splitAtFirst (sep : Char) : List Char → Option (List Char × List Char)
  | [] => none
  | c :: rest =>
    if c == sep then some ([], rest)
    else (splitAtFirst sep rest).map (fun pr => (c :: pr.1, pr.2))

def isHexDigitPy (c : Char) : Bool :=
  ('0' ≤ c && c ≤ '9') || ('a' ≤ c && c ≤ 'f') || ('A' ≤ c && c ≤ 'F')

def hexVal (c : Char) : Nat :=
  if '0' ≤ c && c ≤ '9' then c.toNat - 48
  else if 'a' ≤ c && c ≤ 'f' then c.toNat - 87
  else c.toNat - 55

/-- One percent-decoded byte as a character.  CPython UTF-8-decodes byte
runs with `errors='replace'`; bytes ≥ 0x80 are modelled by the replacement
character (exact for the ASCII inputs used in this development). -/
def byteToChar (n : Nat) : Char :=
  if n < 128 then Char.ofNat n else '�'

/-- Python `urllib.parse.unquote`: decode `%xx` escapes, leaving invalid
escapes verbatim. -/
def pyUnquote : List Char → List Char
  | [] => []
  | '%' :: a :: b :: rest =>
    if isHexDigitPy a && isHexDigitPy b then
      byteToChar (hexVal a * 16 + hexVal b) :: pyUnquote rest
    else '%' :: pyUnquote (a :: b :: rest)
  | '%' :: rest => '%' :: pyUnquote rest
  | c :: rest => c :: pyUnquote rest

/-- The `.replace('+', ' ')` step of `parse_qsl`. -/
def replacePlus (l : List Char) : List Char :=
  l.map (fun c => if c == '+' then ' ' else c)

/-- Python `urllib.parse.parse_qsl` with default arguments. -/
def parse_qsl (qs : List Char) : List (List Char × List Char) :=
  if qs = [] then []
  else
    (splitOnSep '&' qs).filterMap fun nameValue =>
      if nameValue = [] then none
      else
        match splitAtFirst '=' nameValue with
        | none => none
        | some (n, v) =>
          if v = [] then none
          else some (pyUnquote (replacePlus n), pyUnquote (replacePlus v))

/-- The always-safe characters of `urllib.parse.quote`
(alphanumerics and `_.-~`). -/
def isAlwaysSafe (c : Char) : Bool :=
  ('A' ≤ c && c ≤ 'Z') || ('a' ≤ c && c ≤ 'z') || ('0' ≤ c && c ≤ '9') ||
    c == '_' || c == '.' || c == '-' || c == '~'

def hexDigitUpper (n : Nat) : Char :=
  "0123456789ABCDEF".toList.getD n '0'

/-- Percent-encode one UTF-8 byte, uppercase, as `'%{:02X}'.format(b)`. -/
def percentByte (n : Nat) : List Char :=
  ['%', hexDigitUpper (n / 16 % 16), hexDigitUpper (n % 16)]

/-- Python `urllib.parse.quote_plus` with `safe=''` on one character:
safe characters pass through, a space becomes `+`, everything else is
percent-encoded bytewise over its UTF-8 encoding. -/
def quotePlusChar (c : Char) : List Char :=
  if isAlwaysSafe c then [c]
  else if c == ' ' then ['+']
  else (String.utf8EncodeChar c).flatMap (fun b => percentByte b.toNat)

/-- Python `urllib.parse.quote_plus` with `safe=''`. -/
def pyQuotePlus (l : List Char) : List Char :=
  l.flatMap quotePlusChar

/-- Python `'&'.join`. -/
def joinAmp : List (List Char) → List Char
  | [] => []
  | [p] => p
  | p :: ps => p ++ '&' :: joinAmp ps

def urlencodePair (kv : List Char × List Char) : List Char :=
  pyQuotePlus kv.1 ++ '=' :: pyQuotePlus kv.2

/-- Python `urllib.parse.urlencode` on a list of pairs (`quote_via=quote_plus`). -/
def urlencode (ps : List (List Char × List Char)) : List Char :=
  joinAmp (ps.map urlencodePair)

/-- Python `dict` assignment `d[k] = v`: replace in place or append. -/
def dictInsert (k v : List Char) :
    List (List Char × List Char) → List (List Char × List Char)
  | [] => [(k, v)]
  | kv :: rest => if kv.1 = k then (k, v) :: rest else kv :: dictInsert k v rest

/-- Python `dict(pairs)`: left fold of assignments, preserving first-insertion
order and keeping the last value for duplicated keys. -/
def dictOf (ps : List (List Char × List Char)) : List (List Char × List Char) :=
  ps.foldl (fun acc kv => dictInsert kv.1 kv.2 acc) []

/-! ## `urlsplit` / `urlparse` / `urlunparse` (CPython 3.11) -/

/-- `scheme_chars` of `urllib.parse`. -/
def schemeChars : List Char :=
  "abcdefghijklmnopqrstuvwxyzABCDEFGHIJKLMNOPQRSTUVWXYZ0123456789+-.".toList

def isAsciiAlpha (c : Char) : Bool :=
  ('A' ≤ c && c ≤ 'Z') || ('a' ≤ c && c ≤ 'z')

/-- `uses_netloc` of `urllib.parse`. -/
def uses_netloc : List (List Char) :=
  [[], "ftp".toList, "http".toList, "gopher".toList, "nntp".toList,
   "telnet".toList, "imap".toList, "wais".toList, "file".toList,
   "mms".toList, "https".toList, "shttp".toList, "snews".toList,
   "prospero".toList, "rtsp".toList, "rtspu".toList, "rsync".toList,
   "svn".toList, "svn+ssh".toList, "sftp".toList, "nfs".toList,
   "git".toList, "git+ssh".toList, "ws".toList, "wss".toList]

/-- `uses_params` of `urllib.parse`. -/
def uses_params : List (List Char) :=
  [[], "ftp".toList, "hdl".toList, "prospero".toList, "http".toList,
   "imap".toList, "https".toList, "shttp".toList, "rtsp".toList,
   "rtspu".toList, "sip".toList, "sips".toList, "mms".toList,
   "sftp".toList, "tel".toList]

/-- The `_UNSAFE_URL_BYTES_TO_REMOVE` removal step of `urlsplit`. -/
def removeUnsafe (l : List Char) : List Char :=
  l.filter (fun c => !(c == '\t' || c == '\r' || c == '\n'))

/-- The scheme-extraction step of `urlsplit`: the text before the first
`:` is a scheme when it is non-empty, starts with an ASCII letter and
consists of `scheme_chars`; it is then lowercased. -/
def splitScheme (url : List Char) : List Char × List Char :=
  match splitAtFirst ':' url with
  | none => ([], url)
  | some (before, after) =>
    if before ≠ [] ∧
        (match before with
         | c :: _ => isAsciiAlpha c
         | [] => false) = true ∧
        before.all (fun c => c ∈ schemeChars) then
      (before.map pyLowerChar, after)
    else ([], url)

def isNetlocDelim (c : Char) : Bool := c == '/' || c == '?' || c == '#'

/-- `_splitnetloc(url, 2)`: the netloc runs to the first of `/?#`. -/
def splitNetloc (url : List Char) : List Char × List Char :=
  let rest := url.drop 2
  (rest.takeWhile (fun c => !isNetlocDelim c),
   rest.dropWhile (fun c => !isNetlocDelim c))

/-- The `<scheme, netloc, path, query, fragment>` of `urlsplit`. -/
structure SplitUrl where
  scheme : List Char
  netloc : List Char
  path : List Char
  query : List Char
  fragment : List Char
deriving Repr, DecidableEq

/-- Python `urllib.parse.urlsplit` (raising `ValueError` on a mismatched
IPv6 bracket; the non-ASCII `_checknetloc` test cannot fire on the ASCII
inputs modelled here). -/
def pyUrlsplit (url0 : List Char) : Except String SplitUrl :=
  let url := removeUnsafe url0
  let (scheme, url) := splitScheme url
  let (netloc, url) :=
    if url.take 2 = ['/', '/'] then splitNetloc url else ([], url)
  if ('[' ∈ netloc ∧ ']' ∉ netloc) ∨ (']' ∈ netloc ∧ '[' ∉ netloc) then
    .error "Invalid IPv6 URL"
  else
    let (url, fragment) :=
      match splitAtFirst '#' url with
      | some (a, b) => (a, b)
      | none => (url, [])
    let (url, query) :=
      match splitAtFirst '?' url with
      | some (a, b) => (a, b)
      | none => (url, [])
    .ok ⟨scheme, netloc, url, query, fragment⟩

/-- The six components of `urlparse`. -/
structure UrlParts where
  scheme : List Char
  netloc : List Char
  path : List Char
  params : List Char
  query : List Char
  fragment : List Char
deriving Repr, DecidableEq

/-- `_splitparams`: split the params off the last path segment. -/
def splitParamsPy (url : List Char) : List Char × List Char :=
  if '/' ∈ url then
    match splitAtFirst '/' url.reverse with
    | some (revAfter, revBefore) =>
      match splitAtFirst ';' revAfter.reverse with
      | none => (url, [])
      | some (a1, a2) => (revBefore.reverse ++ '/' :: a1, a2)
    | none => (url, [])
  else
    match splitAtFirst ';' url with
    | none => (url, [])
    | some (u1, u2) => (u1, u2)

/-- Python `urllib.parse.urlparse`. -/
def pyUrlparse (url0 : List Char) : Except String UrlParts :=
  match pyUrlsplit url0 with
  | .error e => .error e
  | .ok s =>
    if s.scheme ∈ uses_params ∧ ';' ∈ s.path then
      let (p, params) := splitParamsPy s.path
      .ok ⟨s.scheme, s.netloc, p, params, s.query, s.fragment⟩
    else .ok ⟨s.scheme, s.netloc, s.path, [], s.query, s.fragment⟩

/-- The part of `urlunsplit` before the query and fragment are appended:
path/params joined, `//` plus netloc re-added when the netloc is non-empty
or the scheme uses one, and the scheme prefixed. -/
def urlunsplitBase (p : UrlParts) : List Char :=
  let url := if p.params ≠ [] then p.path ++ ';' :: p.params else p.path
  let url :=
    if p.netloc ≠ [] ∨
        (p.scheme ≠ [] ∧ p.scheme ∈ uses_netloc ∧ url.take 2 ≠ ['/', '/']) then
      '/' :: '/' ::
        (p.netloc ++ (if url ≠ [] ∧ url.take 1 ≠ ['/'] then '/' :: url else url))
    else url
  if p.scheme ≠ [] then p.scheme ++ ':' :: url else url

/-- Python `urllib.parse.urlunparse` (via `urlunsplit`): the base, then
`?query` when the query is non-empty, then `#fragment` when the fragment
is non-empty. -/
def pyUrlunparse (p : UrlParts) : List Char :=
  let url := urlunsplitBase p
  let url := if p.query ≠ [] then url ++ '?' :: p.query else url
  if p.fragment ≠ [] then url ++ '#' :: p.fragment else url

/-! ## `_normalize_db_url` and the module-level configuration
(`app.py` lines 17-38) -/

/-- The scheme-rewriting step of `_normalize_db_url` (lines 21-24). -/
def schemeRewriteL (url : List Char) : List Char :=
  if "postgresql://".toList.isPrefixOf url then
    "postgresql+psycopg://".toList ++ url.drop "postgresql://".toList.length
  else if "postgres://".toList.isPrefixOf url then
    "postgresql+psycopg://".toList ++ url.drop "postgres://".toList.length
  else url

def sslmodeKey : List Char := "sslmode".toList
def requireVal : List Char := "require".toList

/-- The check `"sslmode" not in {k.lower(): v for k, v in qs.items()}`,
un-negated: some key lowercases to `sslmode`. -/
def hasSslKey (qs : List (List Char × List Char)) : Bool :=
  qs.any (fun kv => kv.1.map pyLowerChar == sslmodeKey)

/-- `_normalize_db_url` (`app.py` lines 17-31). -/
def normalize_db_url (rawUrl : String) : Except String String :=
  if rawUrl = "" then .error "DATABASE_URL not set"
  else
    let url := schemeRewriteL (pyStripL rawUrl.toList)
    match pyUrlparse url with
    | .error e => .error e
    | .ok parts =>
      let qs := dictOf (parse_qsl parts.query)
      let qs := if !hasSslKey qs then dictInsert sslmodeKey requireVal qs else qs
      .ok (String.mk (pyUrlunparse
        ⟨parts.scheme, parts.netloc, parts.path, parts.params, urlencode qs,
          parts.fragment⟩))

/-- The module-level configuration of `SQLALCHEMY_DATABASE_URI`
(`app.py` lines 34-38): strip the `DATABASE_URL` environment value,
substitute the sqlite file URL when it is empty and `FLASK_ENV` is
`development`, then normalize a non-empty URL or fall back to the sqlite
file URL. -/
def configDatabaseUri (databaseUrlEnv flaskEnvEnv : Option String) :
    Except String String :=
  let dbUrl := pyStrip (databaseUrlEnv.getD "")
  let dbUrl :=
    if dbUrl = "" ∧ flaskEnvEnv = some "development" then "sqlite:///dev.sqlite3"
    else dbUrl
  if dbUrl ≠ "" then normalize_db_url dbUrl else .ok "sqlite:///dev.sqlite3"

/-! ## Invariants and auxiliary predicates used by the claims -/

/-- The spec's per-record invariant: non-empty title, enumerated status. -/
def ItemOk (it : Item) : Prop :=
  it.title ≠ "" ∧ it.status ∈ statusValues

/-- The table-wide invariant. -/
def DbOk (d : Db) : Prop :=
  ∀ it ∈ d.items, ItemOk it

instance (it : Item) : Decidable (ItemOk it) := by
  unfold ItemOk; infer_instance

instance (d : Db) : Decidable (DbOk d) := by
  unfold DbOk; infer_instance

/-- Every character is in `urllib`'s always-safe set. -/
def allSafeChars (l : List Char) : Bool :=
  l.all isAlwaysSafe

/-- Key/value pairs that re-encode verbatim (no reserved characters). -/
def plainPairs (ps : List (List Char × List Char)) : Prop :=
  ∀ kv ∈ ps, allSafeChars kv.1 = true ∧ allSafeChars kv.2 = true

instance {ε α : Type} [DecidableEq ε] [DecidableEq α] :
    DecidableEq (Except ε α) := fun a b =>
  match a, b with
  | .ok x, .ok y =>
    if h : x = y then isTrue (by rw [h])
    else isFalse (fun hc => h (Except.ok.inj hc))
  | .error x, .error y =>
    if h : x = y then isTrue (by rw [h])
    else isFalse (fun hc => h (Except.error.inj hc))
  | .ok _, .error _ => isFalse (fun hc => Except.noConfusion hc)
  | .error _, .ok _ => isFalse (fun hc => Except.noConfusion hc)

/-! # Theorems -/

/-! ## Generic helper lemmas -/

theorem coerceStatus_mem (s : String) : coerceStatus s ∈ statusValues := by
  unfold coerceStatus
  split
  · assumption
  · simp [statusValues]

theorem coerceStatus_eq_self {s : String} (h : s ∈ statusValues) :
    coerceStatus s = s := by
  simp [coerceStatus, h]

theorem forall₂_map_of_mem {α β : Type} {R : α → β → Prop} {g : α → β} :
    ∀ {l : List α}, (∀ x ∈ l, R x (g x)) → List.Forall₂ R l (l.map g)
  | [], _ => List.Forall₂.nil
  | x :: xs, h =>
    List.Forall₂.cons (h x (by simp))
      (forall₂_map_of_mem (fun y hy => h y (by simp [hy])))

/-! ## Branch equations for the handlers -/

theorem create_item_post_empty {f : Form} (d : Db) (now : Nat)
    (ht : pyStrip (f.title.getD "") = "") :
    create_item_post d f now =
      (.rendered "item_form.html" (some ("Title is required", "danger")), d) := by
  simp only [create_item_post]
  rw [if_pos ht]

theorem create_item_post_inserts {f : Form} (d : Db) (now : Nat)
    (ht : ¬ pyStrip (f.title.getD "") = "") :
    create_item_post d f now =
      (.redirected "index" (some ("Item created", "success")),
        ⟨d.items ++
          [⟨d.nextId, pyStrip (f.title.getD ""),
            some (pyStrip (f.description.getD "")),
            coerceStatus (pyStrip (f.status.getD "todo")), now, now⟩],
          d.nextId + 1⟩) := by
  simp only [create_item_post]
  rw [if_neg ht]

theorem edit_item_post_absent {d : Db} {i : Nat} (f : Form) (now : Nat)
    (hl : lookupItem d i = none) :
    edit_item_post d i f now = (.notFound, d) := by
  simp only [edit_item_post, hl]

theorem edit_item_post_empty {d : Db} {i : Nat} {old : Item} {f : Form}
    (now : Nat) (hl : lookupItem d i = some old)
    (ht : pyStrip (f.title.getD "") = "") :
    edit_item_post d i f now =
      (.rendered "item_form.html" (some ("Title is required", "danger")), d) := by
  simp only [edit_item_post, hl]
  rw [if_pos ht]

theorem edit_item_post_updates {d : Db} {i : Nat} {old : Item} {f : Form}
    (now : Nat) (hl : lookupItem d i = some old)
    (ht : ¬ pyStrip (f.title.getD "") = "") :
    edit_item_post d i f now =
      (.redirected "index" (some ("Item updated", "success")),
        ⟨d.items.map (fun it => if it.id == i then applyEdit f now it else it),
          d.nextId⟩) := by
  simp only [edit_item_post, hl]
  rw [if_neg ht]

theorem show_item_absent {d : Db} {i : Nat} (hl : lookupItem d i = none) :
    show_item d i = (.notFound, d) := by
  simp only [show_item, hl]

theorem edit_item_get_absent {d : Db} {i : Nat} (hl : lookupItem d i = none) :
    edit_item_get d i = (.notFound, d) := by
  simp only [edit_item_get, hl]

theorem delete_item_absent {d : Db} {i : Nat} (hl : lookupItem d i = none) :
    delete_item d i = (.notFound, d) := by
  simp only [delete_item, hl]

theorem delete_item_found {d : Db} {i : Nat} {old : Item}
    (hl : lookupItem d i = some old) :
    delete_item d i =
      (.redirected "index" (some ("Item deleted", "success")),
        ⟨d.items.filter (fun it => it.id != i), d.nextId⟩) := by
  simp only [delete_item, hl]

theorem show_item_state (d : Db) (i : Nat) : (show_item d i).2 = d := by
  unfold show_item
  cases lookupItem d i <;> rfl

theorem edit_item_get_state (d : Db) (i : Nat) : (edit_item_get d i).2 = d := by
  unfold edit_item_get
  cases lookupItem d i <;> rfl

/-! ## C2: handlers preserve the title/status invariant -/

/-- C2: every record produced or mutated by the create or edit handler has
a non-empty title and a status among `{todo, in-progress, done}` (an
unrecognized submitted status is coerced to `todo`), and the table-wide
invariant is preserved by every handler. -/
theorem C2_invariant_preserved (d : Db) (hd : DbOk d) :
    (∀ f now, DbOk (create_item_post d f now).2) ∧
    (∀ i f now, DbOk (edit_item_post d i f now).2) ∧
    (∀ i, DbOk (delete_item d i).2) ∧
    (∀ i, DbOk (show_item d i).2 ∧ DbOk (edit_item_get d i).2) ∧
    DbOk (create_item_get d).2 := by
  refine ⟨?_, ?_, ?_, ?_, hd⟩
  · intro f now
    by_cases ht : pyStrip (f.title.getD "") = ""
    · rw [create_item_post_empty d now ht]
      exact hd
    · rw [create_item_post_inserts d now ht]
      intro it hit
      rcases List.mem_append.1 hit with h | h
      · exact hd it h
      · rcases List.mem_singleton.1 h with rfl
        exact ⟨ht, coerceStatus_mem _⟩
  · intro i f now
    cases hl : lookupItem d i with
    | none =>
      rw [edit_item_post_absent f now hl]
      exact hd
    | some old =>
      by_cases ht : pyStrip (f.title.getD "") = ""
      · rw [edit_item_post_empty now hl ht]
        exact hd
      · rw [edit_item_post_updates now hl ht]
        intro it hit
        rcases List.mem_map.1 hit with ⟨x, hx, rfl⟩
        by_cases hid : x.id == i
        · simp only [hid, if_true]
          exact ⟨ht, coerceStatus_mem _⟩
        · simp only [hid, if_false]
          exact hd x hx
  · intro i
    cases hl : lookupItem d i with
    | none =>
      rw [delete_item_absent hl]
      exact hd
    | some old =>
      rw [delete_item_found hl]
      intro it hit
      exact hd it (List.mem_of_mem_filter hit)
  · intro i
    rw [show_item_state, edit_item_get_state]
    exact ⟨hd, hd⟩

/-- Witness for C2 at a concrete database satisfying the invariant. -/
theorem C2_invariant_preserved_witness :
    DbOk ⟨[⟨1, "a", some "", "todo", 0, 0⟩], 2⟩ ∧
    (∀ f now,
      DbOk (create_item_post ⟨[⟨1, "a", some "", "todo", 0, 0⟩], 2⟩ f now).2) :=
  ⟨by decide, (C2_invariant_preserved _ (by decide)).1⟩

/-! ## C3: empty-title POSTs (corrected)

The claim holds for the create handler and for edits of existing records,
but an edit POST addressed to a nonexistent id aborts with 404 before the
title is examined, so "the response re-renders the form ... at HTTP status
200" fails for that case (the state is still unchanged). -/

/-- C3 counterexample: a POST to the edit handler with an empty submitted
title but a nonexistent id yields HTTP 404, not a 200 form re-render. -/
theorem C3_counterexample :
    pyStrip ((⟨some "", none, none⟩ : Form).title.getD "") = "" ∧
    edit_item_post ⟨[], 1⟩ 7 ⟨some "", none, none⟩ 0 =
      (HResult.notFound, ⟨[], 1⟩) ∧
    HResult.notFound.httpStatus = 404 ∧ HResult.notFound.httpStatus ≠ 200 := by
  decide

/-- C3 amended: a POST with an empty trimmed title never creates or
mutates a record; the create handler and the edit handler on an existing
id re-render the form with the error flash at HTTP 200, while the edit
handler on a nonexistent id responds 404 (state still unchanged). -/
theorem C3_empty_title_no_mutation (d : Db) (f : Form) (now : Nat)
    (h : pyStrip (f.title.getD "") = "") :
    create_item_post d f now =
      (.rendered "item_form.html" (some ("Title is required", "danger")), d) ∧
    (create_item_post d f now).1.httpStatus = 200 ∧
    (∀ i, (edit_item_post d i f now).2 = d) ∧
    (∀ i it, lookupItem d i = some it →
      edit_item_post d i f now =
        (.rendered "item_form.html" (some ("Title is required", "danger")), d) ∧
      (edit_item_post d i f now).1.httpStatus = 200) ∧
    (∀ i, lookupItem d i = none →
      edit_item_post d i f now = (HResult.notFound, d)) := by
  refine ⟨create_item_post_empty d now h, ?_, ?_, ?_, ?_⟩
  · rw [create_item_post_empty d now h]
    rfl
  · intro i
    cases hl : lookupItem d i with
    | none => rw [edit_item_post_absent f now hl]
    | some old => rw [edit_item_post_empty now hl h]
  · intro i it hl
    rw [edit_item_post_empty now hl h]
    exact ⟨rfl, rfl⟩
  · intro i hl
    exact edit_item_post_absent f now hl

/-- Witness for C3 at a whitespace-only submitted title. -/
theorem C3_empty_title_no_mutation_witness :
    pyStrip ((⟨some "  ", none, some "done"⟩ : Form).title.getD "") = "" ∧
    (create_item_post ⟨[⟨1, "a", some "", "todo", 0, 0⟩], 2⟩
        ⟨some "  ", none, some "done"⟩ 3 =
      (.rendered "item_form.html" (some ("Title is required", "danger")),
        ⟨[⟨1, "a", some "", "todo", 0, 0⟩], 2⟩) ∧
    (create_item_post ⟨[⟨1, "a", some "", "todo", 0, 0⟩], 2⟩
        ⟨some "  ", none, some "done"⟩ 3).1.httpStatus = 200 ∧
    (∀ i, (edit_item_post ⟨[⟨1, "a", some "", "todo", 0, 0⟩], 2⟩ i
        ⟨some "  ", none, some "done"⟩ 3).2 =
      ⟨[⟨1, "a", some "", "todo", 0, 0⟩], 2⟩) ∧
    (∀ i it,
      lookupItem ⟨[⟨1, "a", some "", "todo", 0, 0⟩], 2⟩ i = some it →
      edit_item_post ⟨[⟨1, "a", some "", "todo", 0, 0⟩], 2⟩ i
          ⟨some "  ", none, some "done"⟩ 3 =
        (.rendered "item_form.html" (some ("Title is required", "danger")),
          ⟨[⟨1, "a", some "", "todo", 0, 0⟩], 2⟩) ∧
      (edit_item_post ⟨[⟨1, "a", some "", "todo", 0, 0⟩], 2⟩ i
          ⟨some "  ", none, some "done"⟩ 3).1.httpStatus = 200) ∧
    (∀ i, lookupItem ⟨[⟨1, "a", some "", "todo", 0, 0⟩], 2⟩ i = none →
      edit_item_post ⟨[⟨1, "a", some "", "todo", 0, 0⟩], 2⟩ i
          ⟨some "  ", none, some "done"⟩ 3 =
        (HResult.notFound, ⟨[⟨1, "a", some "", "todo", 0, 0⟩], 2⟩))) :=
  ⟨by decide, C3_empty_title_no_mutation _ _ _ (by decide)⟩

/-! ## C6: nonexistent ids -/

/-- C6: for an id matching no stored record, the detail handler, both edit
handler methods and the delete handler answer 404 and leave the state
unchanged. -/
theorem C6_nonexistent_id (d : Db) (i : Nat) (h : lookupItem d i = none) :
    show_item d i = (HResult.notFound, d) ∧
    edit_item_get d i = (HResult.notFound, d) ∧
    (∀ f now, edit_item_post d i f now = (HResult.notFound, d)) ∧
    delete_item d i = (HResult.notFound, d) ∧
    HResult.notFound.httpStatus = 404 :=
  ⟨show_item_absent h, edit_item_get_absent h,
    fun f now => edit_item_post_absent f now h, delete_item_absent h, rfl⟩

/-- Witness for C6 on a nonempty table and a fresh id. -/
theorem C6_nonexistent_id_witness :
    lookupItem ⟨[⟨1, "a", some "", "todo", 0, 0⟩], 2⟩ 9 = none ∧
    (show_item ⟨[⟨1, "a", some "", "todo", 0, 0⟩], 2⟩ 9 =
      (HResult.notFound, ⟨[⟨1, "a", some "", "todo", 0, 0⟩], 2⟩) ∧
    edit_item_get ⟨[⟨1, "a", some "", "todo", 0, 0⟩], 2⟩ 9 =
      (HResult.notFound, ⟨[⟨1, "a", some "", "todo", 0, 0⟩], 2⟩) ∧
    (∀ f now, edit_item_post ⟨[⟨1, "a", some "", "todo", 0, 0⟩], 2⟩ 9 f now =
      (HResult.notFound, ⟨[⟨1, "a", some "", "todo", 0, 0⟩], 2⟩)) ∧
    delete_item ⟨[⟨1, "a", some "", "todo", 0, 0⟩], 2⟩ 9 =
      (HResult.notFound, ⟨[⟨1, "a", some "", "todo", 0, 0⟩], 2⟩) ∧
    HResult.notFound.httpStatus = 404) :=
  ⟨by decide, C6_nonexistent_id _ _ (by decide)⟩

/-! ## C7: the edit POST is a frame-preserving update -/

/-- C7: a valid edit POST (existing id, non-empty trimmed title) leaves
the id counter alone and rewrites the table pointwise: records with a
different id are untouched, and the target record keeps its `id` and
`created_at`, gets the submitted trimmed `title`/`description`/coerced
`status`, and has `updated_at` refreshed to the commit instant. -/
theorem C7_edit_frame (d : Db) (i : Nat) (f : Form) (now : Nat) (old : Item)
    (hl : lookupItem d i = some old) (ht : pyStrip (f.title.getD "") ≠ "") :
    (edit_item_post d i f now).2.nextId = d.nextId ∧
    List.Forall₂ (fun bef aft =>
        (bef.id ≠ i → aft = bef) ∧
        (bef.id = i →
          aft.id = bef.id ∧ aft.created_at = bef.created_at ∧
          aft.updated_at = now ∧
          aft.title = pyStrip (f.title.getD "") ∧
          aft.description = some (pyStrip (f.description.getD "")) ∧
          aft.status = coerceStatus (pyStrip (f.status.getD "todo"))))
      d.items (edit_item_post d i f now).2.items := by
  rw [edit_item_post_updates now hl ht]
  refine ⟨rfl, forall₂_map_of_mem ?_⟩
  intro x _
  constructor
  · intro hne
    have : (x.id == i) = false := by
      simp [hne]
    simp [this]
  · intro heq
    have : (x.id == i) = true := by
      simp [heq]
    simp [this, applyEdit]

/-- Witness for C7: editing item 1 of a two-item table. -/
theorem C7_edit_frame_witness :
    lookupItem ⟨[⟨1, "a", some "", "todo", 0, 0⟩, ⟨2, "b", some "x", "done", 1, 1⟩], 3⟩ 1 =
      some ⟨1, "a", some "", "todo", 0, 0⟩ ∧
    pyStrip ((⟨some " New ", some " d ", some "bogus"⟩ : Form).title.getD "") ≠ "" ∧
    ((edit_item_post ⟨[⟨1, "a", some "", "todo", 0, 0⟩, ⟨2, "b", some "x", "done", 1, 1⟩], 3⟩ 1
        ⟨some " New ", some " d ", some "bogus"⟩ 9).2.nextId = 3 ∧
    List.Forall₂ (fun bef aft =>
        (bef.id ≠ 1 → aft = bef) ∧
        (bef.id = 1 →
          aft.id = bef.id ∧ aft.created_at = bef.created_at ∧
          aft.updated_at = 9 ∧
          aft.title = pyStrip ((⟨some " New ", some " d ", some "bogus"⟩ : Form).title.getD "") ∧
          aft.description = some (pyStrip ((⟨some " New ", some " d ", some "bogus"⟩ : Form).description.getD "")) ∧
          aft.status = coerceStatus (pyStrip ((⟨some " New ", some " d ", some "bogus"⟩ : Form).status.getD "todo"))))
      [⟨1, "a", some "", "todo", 0, 0⟩, ⟨2, "b", some "x", "done", 1, 1⟩]
      (edit_item_post ⟨[⟨1, "a", some "", "todo", 0, 0⟩, ⟨2, "b", some "x", "done", 1, 1⟩], 3⟩ 1
        ⟨some " New ", some " d ", some "bogus"⟩ 9).2.items) :=
  ⟨by decide, by decide,
    C7_edit_frame _ _ _ _ ⟨1, "a", some "", "todo", 0, 0⟩ (by decide) (by decide)⟩

/-! ## C9: descriptions are stored as (possibly empty) strings, never null -/

/-- C9: both mutating handlers store `some`-descriptions: an absent or
blank description field is persisted as the empty string, never as null,
although the column is nullable; the no-null property propagates. -/
theorem C9_description_never_null (d : Db) (f : Form) (now : Nat)
    (hd : ∀ it ∈ d.items, it.description ≠ none) :
    (∀ it ∈ (create_item_post d f now).2.items, it.description ≠ none) ∧
    (∀ i, ∀ it ∈ (edit_item_post d i f now).2.items, it.description ≠ none) ∧
    (pyStrip (f.title.getD "") ≠ "" → f.description = none →
      ∃ it ∈ (create_item_post d f now).2.items,
        it.id = d.nextId ∧ it.description = some "") := by
  refine ⟨?_, ?_, ?_⟩
  · by_cases ht : pyStrip (f.title.getD "") = ""
    · rw [create_item_post_empty d now ht]
      exact hd
    · rw [create_item_post_inserts d now ht]
      intro it hit
      rcases List.mem_append.1 hit with h | h
      · exact hd it h
      · rcases List.mem_singleton.1 h with rfl
        simp
  · intro i
    cases hl : lookupItem d i with
    | none =>
      rw [edit_item_post_absent f now hl]
      exact hd
    | some old =>
      by_cases ht : pyStrip (f.title.getD "") = ""
      · rw [edit_item_post_empty now hl ht]
        exact hd
      · rw [edit_item_post_updates now hl ht]
        intro it hit
        rcases List.mem_map.1 hit with ⟨x, hx, rfl⟩
        by_cases hid : x.id == i
        · simp [hid, applyEdit]
        · simp only [hid, if_false]
          exact hd x hx
  · intro ht hdesc
    rw [create_item_post_inserts d now ht]
    refine ⟨⟨d.nextId, pyStrip (f.title.getD ""),
      some (pyStrip (f.description.getD "")),
      coerceStatus (pyStrip (f.status.getD "todo")), now, now⟩, by simp, rfl, ?_⟩
    rw [hdesc]
    rfl

/-- Witness for C9: creating with an absent description field stores
`some ""`. -/
theorem C9_description_never_null_witness :
    (∀ it ∈ (⟨[⟨1, "a", some "x", "done", 0, 0⟩], 2⟩ : Db).items,
      it.description ≠ none) ∧
    (pyStrip ((⟨some "t", none, none⟩ : Form).title.getD "") ≠ "" →
      (⟨some "t", none, none⟩ : Form).description = none →
      ∃ it ∈ (create_item_post ⟨[⟨1, "a", some "x", "done", 0, 0⟩], 2⟩
          ⟨some "t", none, none⟩ 4).2.items,
        it.id = 2 ∧ it.description = some "") :=
  ⟨by decide,
    (C9_description_never_null ⟨[⟨1, "a", some "x", "done", 0, 0⟩], 2⟩
      ⟨some "t", none, none⟩ 4 (by decide)).2.2⟩

/-! ## C10: the submitted status is trimmed before validation -/

/-- C10: both mutating handlers trim the submitted status before the
membership test, so a value whose trimmed form is one of the three
statuses is stored trimmed rather than coerced to the default. -/
theorem C10_status_trimmed (d : Db) (f : Form) (now : Nat) (s : String)
    (hs : f.status = some s) (hval : pyStrip s ∈ statusValues)
    (ht : pyStrip (f.title.getD "") ≠ "") :
    (∃ it, (create_item_post d f now).2.items = d.items ++ [it] ∧
      it.id = d.nextId ∧ it.status = pyStrip s) ∧
    (∀ i old, lookupItem d i = some old →
      ∃ it ∈ (edit_item_post d i f now).2.items,
        it.id = old.id ∧ it.status = pyStrip s) := by
  have hcoerce : coerceStatus (pyStrip (f.status.getD "todo")) = pyStrip s := by
    rw [hs]
    exact coerceStatus_eq_self hval
  constructor
  · rw [create_item_post_inserts d now ht]
    exact ⟨_, rfl, rfl, hcoerce⟩
  · intro i old hl
    rw [edit_item_post_updates now hl ht]
    have hl2 : List.find? (fun it => it.id == i) d.items = some old := hl
    have hmem : old ∈ d.items := List.mem_of_find?_eq_some hl2
    have hid : (old.id == i) = true := by
      have h2 := List.find?_some hl2
      simpa using h2
    refine ⟨applyEdit f now old, ?_, rfl, hcoerce⟩
    rcases List.mem_map.1 (List.mem_map_of_mem
      (fun it => if it.id == i then applyEdit f now it else it) hmem) with _
    refine List.mem_map.2 ⟨old, hmem, ?_⟩
    rw [hid]
    rfl

/-- Witness for C10: status `" done "` is stored as `"done"`. -/
theorem C10_status_trimmed_witness :
    (⟨some "t", none, some " done "⟩ : Form).status = some " done " ∧
    pyStrip " done " ∈ statusValues ∧
    pyStrip ((⟨some "t", none, some " done "⟩ : Form).title.getD "") ≠ "" ∧
    (∃ it, (create_item_post ⟨[], 1⟩ ⟨some "t", none, some " done "⟩ 4).2.items =
        ([] : List Item) ++ [it] ∧
      it.id = 1 ∧ it.status = pyStrip " done ") :=
  ⟨rfl, by decide, by decide,
    (C10_status_trimmed ⟨[], 1⟩ ⟨some "t", none, some " done "⟩ 4 " done "
      rfl (by decide) (by decide)).1⟩

/-! ## C4: the listing filter (corrected)

The handler matches with the SQL `LIKE` pattern `%q%`, in which `%` and
`_` inside `q` act as wildcards; for such queries the result is not
"the items whose title or description contains `q`".  For wildcard-free
queries the two notions agree, which is proved below. -/

theorem toNat_ofNat_valid {n : Nat} (h : n < 55296) :
    (Char.ofNat n).toNat = n := by
  have hv : n.isValidChar := Or.inl h
  simp [Char.ofNat, hv, Char.ofNatAux, Char.toNat, UInt32.toNat,
    BitVec.toNat_ofNatLt]

theorem pyLowerChar_ne_wild {c : Char} (h : c ≠ '%' ∧ c ≠ '_') :
    pyLowerChar c ≠ '%' ∧ pyLowerChar c ≠ '_' := by
  unfold pyLowerChar
  split
  case isTrue hU =>
    obtain ⟨h1, h2⟩ := hU
    rw [Char.le_def, UInt32.le_def, BitVec.le_def] at h1 h2
    have hb1 : 65 ≤ c.toNat := h1
    have hb2 : c.toNat ≤ 90 := h2
    have hn : (Char.ofNat (c.toNat + 32)).toNat = c.toNat + 32 :=
      toNat_ofNat_valid (by omega)
    have h37 : ('%').toNat = 37 := by decide
    have h95 : ('_').toNat = 95 := by decide
    constructor <;> intro hEq <;>
      [have he := congrArg Char.toNat hEq; have he := congrArg Char.toNat hEq] <;>
      rw [hn] at he <;> omega
  case isFalse => exact h

theorem beginsWith_iff (p : List Char) :
    ∀ s, beginsWith p s = true ↔ ∃ t, s = p ++ t := by
  induction p with
  | nil =>
    intro s
    simp [beginsWith]
  | cons c ps ih =>
    intro s
    cases s with
    | nil =>
      simp [beginsWith]
    | cons d s2 =>
      simp only [beginsWith, Bool.and_eq_true, beq_iff_eq, ih,
        List.cons_append, List.cons.injEq]
      constructor
      · rintro ⟨rfl, t, rfl⟩
        exact ⟨t, rfl, rfl⟩
      · rintro ⟨t, rfl, rfl⟩
        exact ⟨rfl, t, rfl⟩

theorem isSubList_iff (p : List Char) :
    ∀ s, isSubList p s = true ↔ ∃ u t, s = u ++ p ++ t := by
  intro s
  induction s with
  | nil =>
    simp only [isSubList, beq_iff_eq]
    constructor
    · rintro rfl
      exact ⟨[], [], rfl⟩
    · rintro ⟨u, t, ht⟩
      rcases List.append_eq_nil.1 (List.append_eq_nil.1 ht.symm).1 with ⟨-, rfl⟩
      simp
  | cons c rest ih =>
    simp only [isSubList, Bool.or_eq_true, beginsWith_iff, ih]
    constructor
    · rintro (⟨t, ht⟩ | ⟨u, t, ht⟩)
      · exact ⟨[], t, by simpa using ht⟩
      · exact ⟨c :: u, t, by simp [ht]⟩
    · rintro ⟨u, t, ht⟩
      cases u with
      | nil =>
        exact Or.inl ⟨t, by rw [ht, List.nil_append]⟩
      | cons u0 us =>
        rw [List.cons_append, List.cons_append] at ht
        injection ht with h1 h2
        subst h1
        exact Or.inr ⟨us, t, h2⟩

theorem likeStar_iff (f : List Char → Bool) :
    ∀ s : List Char, (likeStar f s = true ↔ ∃ u t, s = u ++ t ∧ f t = true) := by
  intro s
  induction s with
  | nil =>
    simp only [likeStar]
    constructor
    · intro h
      exact ⟨[], [], rfl, h⟩
    · rintro ⟨u, t, ht, hf⟩
      rcases List.append_eq_nil.1 ht.symm with ⟨rfl, rfl⟩
      exact hf
  | cons c s2 ih =>
    simp only [likeStar, Bool.or_eq_true, ih]
    constructor
    · rintro (h | ⟨u, t, rfl, hf⟩)
      · exact ⟨[], c :: s2, rfl, h⟩
      · exact ⟨c :: u, t, rfl, hf⟩
    · rintro ⟨u, t, ht, hf⟩
      cases u with
      | nil =>
        simp only [List.nil_append] at ht
        subst ht
        exact Or.inl hf
      | cons u0 us =>
        rw [List.cons_append] at ht
        injection ht with h1 h2
        subst h1
        exact Or.inr ⟨us, t, h2, hf⟩

theorem likeM_pct (ps : List Char) (s : List Char) :
    likeM ('%' :: ps) s = likeStar (likeM ps) s := by
  simp [likeM]

theorem likeM_cons_ne {c : Char} (ps : List Char) (hc : c ≠ '%') :
    ∀ s, likeM (c :: ps) s =
      (match s with
       | [] => false
       | d :: s2 => (if c = '_' then true else c == d) && likeM ps s2) := by
  intro s
  simp only [likeM]
  rw [if_neg hc]

theorem likeM_lit_pct (p : List Char) (hp : ∀ c ∈ p, c ≠ '%' ∧ c ≠ '_') :
    ∀ s : List Char, (likeM (p ++ ['%']) s = true ↔ ∃ t, s = p ++ t) := by
  induction p with
  | nil =>
    intro s
    rw [List.nil_append, likeM_pct, likeStar_iff]
    constructor
    · intro _
      exact ⟨s, rfl⟩
    · intro _
      exact ⟨s, [], by simp, rfl⟩
  | cons c p' ih =>
    intro s
    have hc := hp c (by simp)
    have ih2 := ih (fun x hx => hp x (by simp [hx]))
    rw [List.cons_append, likeM_cons_ne _ hc.1]
    cases s with
    | nil =>
      simp
    | cons d s2 =>
      show ((if c = '_' then true else c == d) && likeM (p' ++ ['%']) s2) = true ↔ _
      rw [if_neg hc.2]
      simp only [Bool.and_eq_true, beq_iff_eq, ih2, List.cons_append,
        List.cons.injEq]
      constructor
      · rintro ⟨rfl, t, rfl⟩
        exact ⟨t, rfl, rfl⟩
      · rintro ⟨t, rfl, rfl⟩
        exact ⟨rfl, t, rfl⟩

theorem likeM_sandwich (p : List Char) (hp : ∀ c ∈ p, c ≠ '%' ∧ c ≠ '_')
    (s : List Char) : likeM ('%' :: (p ++ ['%'])) s = isSubList p s := by
  have h1 : likeM ('%' :: (p ++ ['%'])) s = true ↔ ∃ u t, s = u ++ p ++ t := by
    rw [likeM_pct, likeStar_iff]
    constructor
    · rintro ⟨u, t, rfl, hf⟩
      rcases (likeM_lit_pct p hp t).1 hf with ⟨t2, rfl⟩
      exact ⟨u, t2, by rw [List.append_assoc]⟩
    · rintro ⟨u, t, rfl⟩
      exact ⟨u, p ++ t, by rw [List.append_assoc],
        (likeM_lit_pct p hp (p ++ t)).2 ⟨t, rfl⟩⟩
  rw [← isSubList_iff] at h1
  cases hb : isSubList p s
  · cases ha : likeM ('%' :: (p ++ ['%'])) s
    · rfl
    · rw [hb] at h1
      exact absurd (h1.1 ha) (by simp)
  · exact h1.2 hb

theorem insertDesc_perm (x : Item) :
    ∀ l : List Item, (insertDesc x l).Perm (x :: l) := by
  intro l
  induction l with
  | nil => exact List.Perm.refl _
  | cons y ys ih =>
    simp only [insertDesc]
    split
    · exact List.Perm.refl _
    · exact (List.Perm.cons y ih).trans (List.Perm.swap x y ys)

theorem sortByCreatedDesc_perm (l : List Item) :
    (sortByCreatedDesc l).Perm l := by
  induction l with
  | nil => exact List.Perm.refl _
  | cons x xs ih =>
    exact (insertDesc_perm x (sortByCreatedDesc xs)).trans (List.Perm.cons x ih)

theorem insertDesc_pairwise (x : Item) {l : List Item}
    (hl : l.Pairwise (fun a b => b.created_at ≤ a.created_at)) :
    (insertDesc x l).Pairwise (fun a b => b.created_at ≤ a.created_at) := by
  induction l with
  | nil => simp [insertDesc]
  | cons y ys ih =>
    rcases List.pairwise_cons.1 hl with ⟨hy, hys⟩
    simp only [insertDesc]
    split
    case isTrue hle =>
      refine List.pairwise_cons.2 ⟨?_, hl⟩
      intro z hz
      rcases List.mem_cons.1 hz with rfl | hz
      · exact hle
      · exact le_trans (hy z hz) hle
    case isFalse hgt =>
      refine List.pairwise_cons.2 ⟨?_, ih hys⟩
      intro z hz
      have hz2 : z ∈ x :: ys := (insertDesc_perm x ys).mem_iff.1 hz
      rcases List.mem_cons.1 hz2 with rfl | hz2
      · exact Nat.le_of_not_le hgt
      · exact hy z hz2

theorem sortByCreatedDesc_pairwise (l : List Item) :
    (sortByCreatedDesc l).Pairwise (fun a b => b.created_at ≤ a.created_at) := by
  induction l with
  | nil => simp [sortByCreatedDesc]
  | cons x xs ih => exact insertDesc_pairwise x ih

/-- Under a wildcard-free query, the handler's `ilike`-based test agrees
with the spec's case-insensitive-containment test. -/
theorem itemMatchesQ_eq_spec {q : String}
    (hq : ∀ c ∈ q.toList, c ≠ '%' ∧ c ≠ '_') (it : Item) :
    itemMatchesQ q it =
      (containsCI q it.title ||
        (match it.description with
         | some dsc => containsCI q dsc
         | none => false)) := by
  have hq2 : ∀ c ∈ q.toList.map pyLowerChar, c ≠ '%' ∧ c ≠ '_' := by
    intro c hc
    rcases List.mem_map.1 hc with ⟨c0, hc0, rfl⟩
    exact pyLowerChar_ne_wild (hq c0 hc0)
  have hpl : pyLowerChar '%' = '%' := by decide
  simp only [itemMatchesQ, iLike, containsCI, List.map_append, List.map_cons,
    List.map_nil, hpl, List.cons_append]
  simp only [likeM_sandwich _ hq2]

/-- C4 counterexample: with the stored title `axb` and the query `a_b`
the listing returns the item although neither its title nor its
description case-insensitively contains the string `a_b` (the `_` acts
as a single-character wildcard in the handler's `LIKE` pattern). -/
theorem C4_counterexample :
    (index ⟨[⟨1, "axb", some "", "todo", 0, 0⟩], 2⟩ (some "a_b") none).items =
      [⟨1, "axb", some "", "todo", 0, 0⟩] ∧
    containsCI "a_b" "axb" = false ∧
    containsCI "a_b" "" = false ∧
    specMatches "a_b" "" ⟨1, "axb", some "", "todo", 0, 0⟩ = false ∧
    pyStrip ((some "a_b").getD "") = "a_b" := by
  decide


/-- C4 amended: for parameters whose trimmed query contains no `LIKE`
wildcard (`%` or `_`), the listing returns exactly the items whose title
or description case-insensitively contains the query (when provided) and
whose status equals the filter (when provided) - the intersection - as a
list ordered newest-created-first by creation timestamp. -/
theorem C4_listing_filter (d : Db) (qArg sArg : Option String)
    (hq : ∀ c ∈ (pyStrip (qArg.getD "")).toList, c ≠ '%' ∧ c ≠ '_') :
    (index d qArg sArg).items.Perm
      (d.items.filter
        (specMatches (pyStrip (qArg.getD "")) (pyStrip (sArg.getD "")))) ∧
    (index d qArg sArg).items.Pairwise
      (fun a b => b.created_at ≤ a.created_at) := by
  simp only [index]
  set q := pyStrip (qArg.getD "") with hqd
  set st := pyStrip (sArg.getD "") with hstd
  refine ⟨?_, sortByCreatedDesc_pairwise _⟩
  have hchain :
      (if st ≠ "" then
        (if q ≠ "" then d.items.filter (itemMatchesQ q) else d.items).filter
          (fun it => it.status == st)
      else (if q ≠ "" then d.items.filter (itemMatchesQ q) else d.items)) =
      d.items.filter (specMatches q st) := by
    by_cases hq0 : q = ""
    · have hqb : (q == "") = true := by simp [hq0]
      by_cases hs0 : st = ""
      · have hsb : (st == "") = true := by simp [hs0]
        rw [if_neg (by simp [hs0]), if_neg (by simp [hq0])]
        exact ((List.filter_congr
          (fun x _ => by simp [specMatches, hqb, hsb])).trans
            (List.filter_true _)).symm
      · have hsb : (st == "") = false := by simp [hs0]
        rw [if_pos hs0, if_neg (by simp [hq0])]
        exact List.filter_congr (fun x _ => by simp [specMatches, hqb, hsb])
    · have hqb : (q == "") = false := by simp [hq0]
      by_cases hs0 : st = ""
      · have hsb : (st == "") = true := by simp [hs0]
        rw [if_neg (by simp [hs0]), if_pos hq0]
        exact List.filter_congr
          (fun x _ => by simp [specMatches, hqb, hsb, itemMatchesQ_eq_spec hq x])
      · have hsb : (st == "") = false := by simp [hs0]
        rw [if_pos hs0, if_pos hq0, List.filter_filter]
        exact List.filter_congr
          (fun x _ => by
            simp [specMatches, hqb, hsb, itemMatchesQ_eq_spec hq x,
              Bool.and_comm])
  rw [hchain]
  exact sortByCreatedDesc_perm _

/-- Witness for C4 on a two-item table with query `foo`. -/
theorem C4_listing_filter_witness :
    (∀ c ∈ (pyStrip ((some "foo").getD "")).toList, c ≠ '%' ∧ c ≠ '_') ∧
    ((index ⟨[⟨1, "xFooy", some "", "todo", 0, 0⟩, ⟨2, "b", none, "done", 1, 1⟩], 3⟩
        (some "foo") none).items.Perm
      ([⟨1, "xFooy", some "", "todo", 0, 0⟩, ⟨2, "b", none, "done", 1, 1⟩].filter
        (specMatches (pyStrip ((some "foo").getD ""))
          (pyStrip ((none : Option String).getD "")))) ∧
    (index ⟨[⟨1, "xFooy", some "", "todo", 0, 0⟩, ⟨2, "b", none, "done", 1, 1⟩], 3⟩
        (some "foo") none).items.Pairwise
      (fun a b => b.created_at ≤ a.created_at)) :=
  ⟨by decide, C4_listing_filter _ _ _ (by decide)⟩

/-! ## C1: startup configuration fallback (corrected)

`app.py` line 38 reads `_normalize_db_url(db_url) if db_url else
"sqlite:///dev.sqlite3"`: with an empty connection string the normalizer -
and hence its `RuntimeError` - is never reached, in or out of development
mode.  In development mode the substituted URL does pass through the
normalizer, which reassembles it as `sqlite:/dev.sqlite3?sslmode=require`
(single slash, `sqlite` not being a netloc-using scheme, plus the forced
`sslmode`). -/

/-- C1 counterexample: with no connection string and without the
development flag, configuration succeeds with the sqlite fallback instead
of failing with a configuration error. -/
theorem C1_counterexample :
    configDatabaseUri none none = Except.ok "sqlite:///dev.sqlite3" ∧
    (configDatabaseUri none none).isOk = true := by
  decide

/-- C1 amended: when the stripped `DATABASE_URL` value is empty the
configuration never fails: outside development mode the literal fallback
`sqlite:///dev.sqlite3` is used directly, and in development mode the
substituted local URL additionally passes through the normalizer,
yielding `sqlite:/dev.sqlite3?sslmode=require`. -/
theorem C1_fallback (dbe fe : Option String)
    (h : pyStrip (dbe.getD "") = "") :
    configDatabaseUri dbe fe =
      .ok (if fe = some "development" then "sqlite:/dev.sqlite3?sslmode=require"
        else "sqlite:///dev.sqlite3") := by
  simp only [configDatabaseUri]
  rw [h]
  by_cases hf : fe = some "development"
  · have h1 : (if "" = "" ∧ fe = some "development" then "sqlite:///dev.sqlite3"
        else "") = "sqlite:///dev.sqlite3" := if_pos ⟨rfl, hf⟩
    rw [h1, if_pos hf]
    decide
  · have h1 : (if "" = "" ∧ fe = some "development" then "sqlite:///dev.sqlite3"
        else "") = "" := if_neg (by simp [hf])
    rw [h1, if_neg hf]
    decide

/-- Witness for C1 with a whitespace-only connection string in
development mode. -/
theorem C1_fallback_witness :
    pyStrip ((some "   ").getD "") = "" ∧
    configDatabaseUri (some "   ") (some "development") =
      .ok (if (some "development" : Option String) = some "development"
        then "sqlite:/dev.sqlite3?sslmode=require"
        else "sqlite:///dev.sqlite3") :=
  ⟨by decide, C1_fallback _ _ (by decide)⟩

/-! ## C8: the query-string rewrite of the normalizer (corrected) -/

theorem pyUnquote_cons_ne {c : Char} {rest : List Char} (hc : c ≠ '%') :
    pyUnquote (c :: rest) = c :: pyUnquote rest := by
  rw [pyUnquote.eq_def]
  split <;> rename_i heq
  · exact absurd heq (by simp)
  · injection heq with h1 h2
    exact absurd h1 hc
  · injection heq with h1 h2
    exact absurd h1 hc
  · injection heq with h1 h2
    rw [← h1, ← h2]

theorem pyUnquote_plain : ∀ {l : List Char}, (∀ c ∈ l, c ≠ '%') →
    pyUnquote l = l
  | [], _ => rfl
  | c :: rest, h => by
    rw [pyUnquote_cons_ne (h c (by simp)),
      pyUnquote_plain (fun x hx => h x (by simp [hx]))]

theorem pyUnquote_ne_nil : ∀ {l : List Char}, l ≠ [] → pyUnquote l ≠ []
  | [], h => absurd rfl h
  | c :: rest, _ => by
    by_cases hc : c = '%'
    · subst hc
      rw [pyUnquote.eq_def]
      split
      · rename_i heq
        exact absurd heq (by simp)
      · split <;> simp
      · simp
      · simp
    · rw [pyUnquote_cons_ne hc]
      simp



theorem safe_char_ne {c : Char} (h : isAlwaysSafe c = true) :
    c ≠ '&' ∧ c ≠ '=' ∧ c ≠ '+' ∧ c ≠ '%' ∧ c ≠ ' ' := by
  refine ⟨?_, ?_, ?_, ?_, ?_⟩ <;> rintro rfl <;> exact absurd h (by decide)

theorem quotePlusChar_safe {c : Char} (h : isAlwaysSafe c = true) :
    quotePlusChar c = [c] := by
  unfold quotePlusChar
  rw [if_pos h]

theorem allSafeChars_cons {c : Char} {rest : List Char}
    (h : allSafeChars (c :: rest) = true) :
    isAlwaysSafe c = true ∧ allSafeChars rest = true := by
  unfold allSafeChars at h ⊢
  simpa using h

theorem pyQuotePlus_plain : ∀ {l : List Char}, allSafeChars l = true →
    pyQuotePlus l = l
  | [], _ => rfl
  | c :: rest, h => by
    obtain ⟨hc, hr⟩ := allSafeChars_cons h
    unfold pyQuotePlus
    rw [List.flatMap_cons, quotePlusChar_safe hc]
    have hrec := pyQuotePlus_plain hr
    unfold pyQuotePlus at hrec
    rw [hrec]
    rfl

theorem replacePlus_plain : ∀ {l : List Char}, (∀ c ∈ l, c ≠ '+') →
    replacePlus l = l
  | [], _ => rfl
  | c :: rest, h => by
    have hc : ¬(c == '+') = true := by simp [h c (by simp)]
    have hrec : replacePlus rest = rest :=
      replacePlus_plain (fun x hx => h x (by simp [hx]))
    unfold replacePlus at hrec ⊢
    rw [List.map_cons, if_neg hc, hrec]

theorem splitOnSep_no_sep {sep : Char} :
    ∀ {p : List Char}, sep ∉ p → splitOnSep sep p = [p]
  | [], _ => rfl
  | c :: rest, h => by
    have hc : ¬(c == sep) = true := by
      simp only [beq_iff_eq]
      intro hr
      exact h (by simp [hr])
    simp only [splitOnSep,
      splitOnSep_no_sep (fun hm => h (List.mem_cons_of_mem c hm)), if_neg hc]

theorem splitOnSep_append {sep : Char} :
    ∀ {p : List Char} (rest : List Char), sep ∉ p →
      splitOnSep sep (p ++ sep :: rest) = p :: splitOnSep sep rest
  | [], rest, _ => by
    simp only [List.nil_append, splitOnSep,
      if_pos (by simp : (sep == sep) = true)]
  | c :: p', rest, h => by
    have hc : ¬(c == sep) = true := by
      simp only [beq_iff_eq]
      intro hr
      exact h (by simp [hr])
    have hrec : splitOnSep sep (p' ++ sep :: rest) = p' :: splitOnSep sep rest :=
      splitOnSep_append rest (fun hm => h (List.mem_cons_of_mem c hm))
    rw [List.cons_append]
    show (if (c == sep) = true then [] :: splitOnSep sep (p' ++ sep :: rest)
      else match splitOnSep sep (p' ++ sep :: rest) with
        | [] => [[c]]
        | p :: ps => (c :: p) :: ps) = (c :: p') :: splitOnSep sep rest
    rw [if_neg hc, hrec]

theorem splitAtFirst_append {sep : Char} :
    ∀ {k : List Char} (v : List Char), sep ∉ k →
      splitAtFirst sep (k ++ sep :: v) = some (k, v)
  | [], v, _ => by
    simp only [List.nil_append, splitAtFirst,
      if_pos (by simp : (sep == sep) = true)]
  | c :: k', v, h => by
    have hc : ¬(c == sep) = true := by
      simp only [beq_iff_eq]
      intro hr
      exact h (by simp [hr])
    have hrec : splitAtFirst sep (k' ++ sep :: v) = some (k', v) :=
      splitAtFirst_append v (fun hm => h (List.mem_cons_of_mem c hm))
    rw [List.cons_append]
    show (if (c == sep) = true then some (([] : List Char), k' ++ sep :: v)
      else (splitAtFirst sep (k' ++ sep :: v)).map
        (fun pr => (c :: pr.1, pr.2))) = some (c :: k', v)
    rw [if_neg hc, hrec]
    rfl



theorem joinAmp_split {sep : Char} : sep = '&' →
    ∀ (ps : List (List Char)), ps ≠ [] → (∀ p ∈ ps, sep ∉ p) →
      splitOnSep sep (joinAmp ps) = ps
  | hsep, [], h, _ => absurd rfl h
  | hsep, [p], _, hp => by
    subst hsep
    exact splitOnSep_no_sep (hp p (by simp))
  | hsep, p :: q :: ps, _, hp => by
    subst hsep
    rw [show joinAmp (p :: q :: ps) = p ++ '&' :: joinAmp (q :: ps) from rfl,
      splitOnSep_append _ (hp p (by simp)),
      joinAmp_split rfl (q :: ps) (by simp)
        (fun x hx => hp x (List.mem_cons_of_mem p hx))]

theorem urlencodePair_shape (kv : List Char × List Char)
    (hk : allSafeChars kv.1 = true) (hv : allSafeChars kv.2 = true) :
    urlencodePair kv = kv.1 ++ '=' :: kv.2 := by
  unfold urlencodePair
  rw [pyQuotePlus_plain hk, pyQuotePlus_plain hv]

theorem mem_dictInsert {x : List Char × List Char} {k v : List Char} :
    ∀ {ps : List (List Char × List Char)}, x ∈ dictInsert k v ps →
      x = (k, v) ∨ x ∈ ps
  | [], h => by
    simpa [dictInsert] using h
  | kv :: rest, h => by
    unfold dictInsert at h
    split at h
    · rcases List.mem_cons.1 h with rfl | hx
      · exact Or.inl rfl
      · exact Or.inr (List.mem_cons_of_mem kv hx)
    · rcases List.mem_cons.1 h with rfl | hx
      · exact Or.inr (by simp)
      · rcases mem_dictInsert hx with h2 | h2
        · exact Or.inl h2
        · exact Or.inr (List.mem_cons_of_mem kv h2)

theorem mem_foldl_dictInsert {x : List Char × List Char} :
    ∀ {ps : List (List Char × List Char)}
      {acc : List (List Char × List Char)},
      x ∈ ps.foldl (fun acc kv => dictInsert kv.1 kv.2 acc) acc →
      x ∈ acc ∨ x ∈ ps
  | [], acc, h => Or.inl h
  | kv :: rest, acc, h => by
    rcases (mem_foldl_dictInsert h :
        x ∈ dictInsert kv.1 kv.2 acc ∨ x ∈ rest) with h2 | h2
    · rcases mem_dictInsert h2 with h3 | h3
      · exact Or.inr (by simp [h3])
      · exact Or.inl h3
    · exact Or.inr (List.mem_cons_of_mem kv h2)

theorem mem_dictOf {x : List Char × List Char}
    {ps : List (List Char × List Char)} (h : x ∈ dictOf ps) : x ∈ ps := by
  rcases mem_foldl_dictInsert h with h2 | h2
  · simp at h2
  · exact h2

theorem dictInsert_absent {k v : List Char} :
    ∀ {ps : List (List Char × List Char)}, (∀ kv ∈ ps, kv.1 ≠ k) →
      dictInsert k v ps = ps ++ [(k, v)]
  | [], _ => rfl
  | kv :: rest, h => by
    unfold dictInsert
    rw [if_neg (h kv (by simp)),
      dictInsert_absent (fun x hx => h x (List.mem_cons_of_mem kv hx)),
      List.cons_append]

theorem parse_qsl_val_ne_nil {qs : List Char} :
    ∀ kv ∈ parse_qsl qs, kv.2 ≠ [] := by
  intro kv hkv
  unfold parse_qsl at hkv
  split at hkv
  · simp at hkv
  · rcases List.mem_filterMap.1 hkv with ⟨piece, _, hf⟩
    split at hf
    · simp at hf
    · split at hf
      · simp at hf
      · rename_i n v hsplit
        split at hf
        · simp at hf
        · rename_i hv
          injection hf with hf2
          subst hf2
          show pyUnquote (replacePlus v) ≠ []
          apply pyUnquote_ne_nil
          unfold replacePlus
          simp [hv]




theorem filterMap_self_of {α : Type} (g : α → Option α) :
    ∀ (l : List α), (∀ x ∈ l, g x = some x) → l.filterMap g = l
  | [], _ => rfl
  | x :: xs, h => by
    rw [List.filterMap_cons, h x (by simp),
      filterMap_self_of g xs (fun y hy => h y (by simp [hy]))]

theorem dictInsert_ne_nil (k v : List Char)
    (ps : List (List Char × List Char)) : dictInsert k v ps ≠ [] := by
  cases ps with
  | nil => simp [dictInsert]
  | cons kv rest =>
    unfold dictInsert
    split <;> simp

theorem urlencode_ne_nil {ps : List (List Char × List Char)} (h : ps ≠ []) :
    urlencode ps ≠ [] := by
  unfold urlencode
  cases ps with
  | nil => exact absurd rfl h
  | cons kv rest =>
    rw [List.map_cons]
    cases hrest : rest.map urlencodePair with
    | nil =>
      show joinAmp [urlencodePair kv] ≠ []
      unfold joinAmp urlencodePair
      simp
    | cons p2 rest2 =>
      show joinAmp (urlencodePair kv :: p2 :: rest2) ≠ []
      unfold joinAmp urlencodePair
      simp

theorem parse_qsl_urlencode (ps : List (List Char × List Char))
    (hne : ps ≠ []) (hplain : plainPairs ps)
    (hvals : ∀ kv ∈ ps, kv.2 ≠ []) :
    parse_qsl (urlencode ps) = ps := by
  have hshape : ∀ kv ∈ ps, urlencodePair kv = kv.1 ++ '=' :: kv.2 :=
    fun kv hkv => urlencodePair_shape kv (hplain kv hkv).1 (hplain kv hkv).2
  have hksafe : ∀ kv ∈ ps, ∀ c ∈ kv.1, isAlwaysSafe c = true := by
    intro kv hkv c hc
    have h2 := (hplain kv hkv).1
    unfold allSafeChars at h2
    exact List.all_eq_true.1 h2 c hc
  have hvsafe : ∀ kv ∈ ps, ∀ c ∈ kv.2, isAlwaysSafe c = true := by
    intro kv hkv c hc
    have h2 := (hplain kv hkv).2
    unfold allSafeChars at h2
    exact List.all_eq_true.1 h2 c hc
  have hamp : ∀ p ∈ ps.map urlencodePair, '&' ∉ p := by
    intro p hp hmem
    rcases List.mem_map.1 hp with ⟨kv, hkv, rfl⟩
    rw [hshape kv hkv] at hmem
    rcases List.mem_append.1 hmem with hm | hm
    · exact (safe_char_ne (hksafe kv hkv '&' hm)).1 rfl
    · rcases List.mem_cons.1 hm with heq | hm2
      · exact absurd heq (by decide)
      · exact (safe_char_ne (hvsafe kv hkv '&' hm2)).1 rfl
  have hqs_ne : urlencode ps ≠ [] := urlencode_ne_nil hne
  unfold parse_qsl
  rw [if_neg hqs_ne]
  unfold urlencode
  rw [joinAmp_split rfl _ (by simpa using hne) hamp, List.filterMap_map]
  apply filterMap_self_of
  intro kv hkv
  obtain ⟨k, v⟩ := kv
  have hsh := hshape (k, v) hkv
  have hkeq : '=' ∉ k := fun hm =>
    (safe_char_ne (hksafe (k, v) hkv '=' hm)).2.1 rfl
  show (if urlencodePair (k, v) = [] then none
    else match splitAtFirst '=' (urlencodePair (k, v)) with
      | none => none
      | some (n, v2) =>
        if v2 = [] then none
        else some (pyUnquote (replacePlus n), pyUnquote (replacePlus v2))) =
    some (k, v)
  rw [hsh, if_neg (by simp), splitAtFirst_append v hkeq]
  show (if v = [] then none
    else some (pyUnquote (replacePlus k), pyUnquote (replacePlus v))) = some (k, v)
  rw [if_neg (hvals (k, v) hkv)]
  rw [replacePlus_plain (fun c hc => (safe_char_ne (hksafe (k, v) hkv c hc)).2.2.1),
    replacePlus_plain (fun c hc => (safe_char_ne (hvsafe (k, v) hkv c hc)).2.2.1),
    pyUnquote_plain (fun c hc => (safe_char_ne (hksafe (k, v) hkv c hc)).2.2.2.1),
    pyUnquote_plain (fun c hc => (safe_char_ne (hvsafe (k, v) hkv c hc)).2.2.2.1)]

theorem pyUrlunparse_shape (p : UrlParts) (hq : p.query ≠ []) :
    pyUrlunparse p = urlunsplitBase p ++ '?' :: p.query ++
      (if p.fragment ≠ [] then '#' :: p.fragment else []) := by
  simp only [pyUrlunparse]
  rw [if_pos hq]
  by_cases hf : p.fragment ≠ []
  · rw [if_pos hf, if_pos hf, List.append_assoc]
  · rw [if_neg hf, if_neg hf, List.append_nil]



/-- C8 amended: the normalizer re-parses and re-encodes the query.  With
`ps` the key-deduplicated `parse_qsl` parse of the (stripped,
scheme-rewritten) URL's query, the output URL's query string is the
re-encoding of `ps` with `("sslmode", "require")` appended exactly when no
retained key lowercases to `sslmode`; for pairs of unreserved characters
the re-encoding round-trips, so exactly those pairs (not the original
query text) survive.  A key only counts as present if `parse_qsl` retains
it, i.e. it has a non-empty value. -/
theorem C8_query_reencoded (raw out : String) (parts : UrlParts)
    (ps final : List (List Char × List Char))
    (hok : normalize_db_url raw = .ok out)
    (hparts : pyUrlparse (schemeRewriteL (pyStripL raw.toList)) = .ok parts)
    (hps : ps = dictOf (parse_qsl parts.query))
    (hfinal : final =
      if !hasSslKey ps then dictInsert sslmodeKey requireVal ps else ps) :
    (∃ pre suf, out.toList = pre ++ '?' :: urlencode final ++ suf) ∧
    (hasSslKey ps = true → final = ps) ∧
    (hasSslKey ps = false → final = ps ++ [(sslmodeKey, requireVal)]) ∧
    (plainPairs ps → parse_qsl (urlencode final) = final) := by
  have hfinal_ne : final ≠ [] := by
    rw [hfinal]
    cases hss : hasSslKey ps with
    | false =>
      simp only [hss, Bool.not_false]
      rw [if_pos trivial]
      exact dictInsert_ne_nil _ _ _
    | true =>
      simp only [hss, Bool.not_true]
      rw [if_neg (by simp)]
      intro hnil
      rw [hnil] at hss
      exact absurd hss (by decide)
  have habsent : hasSslKey ps = false → ∀ kv ∈ ps, kv.1 ≠ sslmodeKey := by
    intro hss kv hkv heq
    have htrue : hasSslKey ps = true := by
      unfold hasSslKey
      rw [List.any_eq_true]
      exact ⟨kv, hkv, by rw [heq]; decide⟩
    rw [hss] at htrue
    exact Bool.false_ne_true htrue
  refine ⟨?_, ?_, ?_, ?_⟩
  · -- shape of the output URL
    by_cases hraw : raw = ""
    · unfold normalize_db_url at hok
      rw [if_pos hraw] at hok
      exact absurd hok (by simp)
    · unfold normalize_db_url at hok
      rw [if_neg hraw] at hok
      simp only [hparts] at hok
      rw [← hps, ← hfinal] at hok
      have hout : out.toList = pyUrlunparse
          ⟨parts.scheme, parts.netloc, parts.path, parts.params,
            urlencode final, parts.fragment⟩ := by
        have h2 := Except.ok.inj hok
        rw [← h2]
        rfl
      rw [hout, pyUrlunparse_shape _ (by exact urlencode_ne_nil hfinal_ne)]
      exact ⟨_, _, rfl⟩
  · intro hss
    rw [hfinal, hss]
    simp
  · intro hss
    rw [hfinal, hss]
    simp only [Bool.not_false]
    rw [if_pos trivial]
    exact dictInsert_absent (habsent hss)
  · intro hplain
    have hplain_final : plainPairs final := by
      intro kv hkv
      rw [hfinal] at hkv
      by_cases hss : hasSslKey ps = true
      · rw [hss] at hkv
        simp only [Bool.not_true] at hkv
        rw [if_neg (by simp)] at hkv
        exact hplain kv hkv
      · rw [Bool.not_eq_true] at hss
        rw [hss] at hkv
        simp only [Bool.not_false] at hkv
        rw [if_pos trivial] at hkv
        rcases mem_dictInsert hkv with rfl | hkv2
        · exact ⟨by decide, by decide⟩
        · exact hplain kv hkv2
    have hvals_final : ∀ kv ∈ final, kv.2 ≠ [] := by
      intro kv hkv
      rw [hfinal] at hkv
      by_cases hss : hasSslKey ps = true
      · rw [hss] at hkv
        simp only [Bool.not_true] at hkv
        rw [if_neg (by simp)] at hkv
        rw [hps] at hkv
        exact parse_qsl_val_ne_nil kv (mem_dictOf hkv)
      · rw [Bool.not_eq_true] at hss
        rw [hss] at hkv
        simp only [Bool.not_false] at hkv
        rw [if_pos trivial] at hkv
        rcases mem_dictInsert hkv with rfl | hkv2
        · decide
        · rw [hps] at hkv2
          exact parse_qsl_val_ne_nil kv (mem_dictOf hkv2)
    exact parse_qsl_urlencode final hfinal_ne hplain_final hvals_final



/-- C8 counterexample: the claim fails in both directions.  With query
`sslmode=` the key `sslmode` is present in the query string, yet
`sslmode=require` is added (parse_qsl drops blank-valued pairs); with
query `a=1&a=2&sslmode=disable` an `sslmode` key is present, yet the
parameters are not left as they are: `a=1` is dropped by the
dict-based deduplication. -/
theorem C8_counterexample :
    normalize_db_url "postgresql://h/db?sslmode=" =
      Except.ok "postgresql+psycopg://h/db?sslmode=require" ∧
    (pyUrlsplit "postgresql://h/db?sslmode=".toList).toOption.map
        SplitUrl.query = some "sslmode=".toList ∧
    normalize_db_url "postgresql://h/db?a=1&a=2&sslmode=disable" =
      Except.ok "postgresql+psycopg://h/db?a=2&sslmode=disable" ∧
    (pyUrlsplit "postgresql://h/db?a=1&a=2&sslmode=disable".toList).toOption.map
        SplitUrl.query = some "a=1&a=2&sslmode=disable".toList ∧
    (pyUrlsplit
        "postgresql+psycopg://h/db?a=2&sslmode=disable".toList).toOption.map
        SplitUrl.query = some "a=2&sslmode=disable".toList := by
  decide

/-- Witness for C8 on a URL without an `sslmode` key. -/
theorem C8_query_reencoded_witness :
    normalize_db_url "postgresql://h/db?b=2&a=1" =
      Except.ok "postgresql+psycopg://h/db?b=2&a=1&sslmode=require" ∧
    ((∃ pre suf,
        "postgresql+psycopg://h/db?b=2&a=1&sslmode=require".toList =
          pre ++ '?' :: urlencode [("b".toList, "2".toList),
            ("a".toList, "1".toList), (sslmodeKey, requireVal)] ++ suf) ∧
      (hasSslKey [("b".toList, "2".toList), ("a".toList, "1".toList)] = true →
        ([("b".toList, "2".toList), ("a".toList, "1".toList),
          (sslmodeKey, requireVal)] : List (List Char × List Char)) =
          [("b".toList, "2".toList), ("a".toList, "1".toList)]) ∧
      (hasSslKey [("b".toList, "2".toList), ("a".toList, "1".toList)] = false →
        ([("b".toList, "2".toList), ("a".toList, "1".toList),
          (sslmodeKey, requireVal)] : List (List Char × List Char)) =
          [("b".toList, "2".toList), ("a".toList, "1".toList)] ++
            [(sslmodeKey, requireVal)]) ∧
      (plainPairs [("b".toList, "2".toList), ("a".toList, "1".toList)] →
        parse_qsl (urlencode [("b".toList, "2".toList),
          ("a".toList, "1".toList), (sslmodeKey, requireVal)]) =
          [("b".toList, "2".toList), ("a".toList, "1".toList),
            (sslmodeKey, requireVal)])) :=
  ⟨by decide,
    C8_query_reencoded "postgresql://h/db?b=2&a=1"
      "postgresql+psycopg://h/db?b=2&a=1&sslmode=require"
      ⟨"postgresql+psycopg".toList, "h".toList, "/db".toList, [],
        "b=2&a=1".toList, []⟩
      [("b".toList, "2".toList), ("a".toList, "1".toList)]
      [("b".toList, "2".toList), ("a".toList, "1".toList),
        (sslmodeKey, requireVal)]
      (by decide) (by decide) (by decide) (by decide)⟩

/-! ## C5: the four listing counts ignore the active filter -/

/-- C5: the counts the listing handler computes are taken over the whole
table, so they are identical for every choice of the `q`/`status`
parameters, and equal the table-level totals. -/
theorem C5_counts_unfiltered (d : Db) (qa sa qb sb : Option String) :
    ((index d qa sa).counts_all, (index d qa sa).counts_todo,
      (index d qa sa).counts_in_progress, (index d qa sa).counts_done) =
    ((index d qb sb).counts_all, (index d qb sb).counts_todo,
      (index d qb sb).counts_in_progress, (index d qb sb).counts_done) ∧
    (index d qa sa).counts_all = d.items.length ∧
    (index d qa sa).counts_todo =
      (d.items.filter (fun it => it.status == "todo")).length ∧
    (index d qa sa).counts_in_progress =
      (d.items.filter (fun it => it.status == "in-progress")).length ∧
    (index d qa sa).counts_done =
      (d.items.filter (fun it => it.status == "done")).length := by
  refine ⟨rfl, rfl, rfl, rfl, rfl⟩

end CrudApp
